import Mathlib

/-!
Shallow embedding of the changeset validation / merge core of the
`js-playground` template repository:

* `scripts/detect-code-changes.mjs` — the PR-scoped change detector
  (`getAddedChangesetFiles`, `getAllChangesets`) and the changeset
  validator (`validateChangesetFile` plus the top-level validation
  script body).
* `scripts/merge-changesets.mjs` — the changeset merger
  (`parseChangeset`, `getHighestBumpType`, `createMergedChangeset`,
  `generateChangesetName`, and the `main` merge routine).

Strings are modelled as `List Char`; the filesystem and the git
collaborator are modelled by explicit inputs (directory listings with
contents and modification times, injected diff results), and the
merger's effects are modelled as an explicit list of filesystem
operations so that ordering and frame properties can be stated.
-/

namespace Changesets

/-- The three recognized semantic-version bump literals. -/
inductive Bump where
  | patch
  | minor
  | major
deriving DecidableEq

/-- Embedding of `BUMP_PRIORITY` from `merge-changesets.mjs` (patch=1, minor=2, major=3). -/
def BUMP_PRIORITY : Bump → Nat
  | .patch => 1
  | .minor => 2
  | .major => 3

/-- The literal spelling of a bump token in a changeset file. -/
def bumpLit : Bump → List Char
  | .patch => 'p' :: 'a' :: 't' :: 'c' :: 'h' :: []
  | .minor => 'm' :: 'i' :: 'n' :: 'o' :: 'r' :: []
  | .major => 'm' :: 'a' :: 'j' :: 'o' :: 'r' :: []

/-- The configured package name, `PACKAGE_NAME = 'my-package'` in both scripts. -/
def PACKAGE_NAME : List Char := "my-package".toList

/-- JavaScript `\s` / `String.prototype.trim` whitespace, restricted to the
    code points that can occur in the repository's changeset files. -/
def isJsWhitespace (c : Char) : Bool :=
  c = ' ' || c = '\t' || c = '\n' || c = '\r' ||
  c = '\x0b' || c = '\x0c' || c.toNat = 160

/-- JavaScript line terminators, after which `^` matches under the `m` flag. -/
def isLineTerminator (c : Char) : Bool :=
  c = '\n' || c = '\r'

/-- Is `pre` a literal prefix of `s`? -/
def litPrefix : List Char → List Char → Bool
  | [], _ => true
  | _ :: _, [] => false
  | p :: ps, c :: cs => p = c && litPrefix ps cs

/-- Consume a literal prefix, returning the rest of the string on success. -/
def dropLit : List Char → List Char → Option (List Char)
  | [], s => some s
  | _ :: _, [] => none
  | p :: ps, c :: cs => if p = c then dropLit ps cs else none

/-- Try the alternation `(major|minor|patch)` at the current position
    (JS alternation order; the three tokens are mutually non-prefixing). -/
def bumpAt (s : List Char) : Option Bump :=
  if litPrefix (bumpLit .major) s then some .major
  else if litPrefix (bumpLit .minor) s then some .minor
  else if litPrefix (bumpLit .patch) s then some .patch
  else none

/-- Match `['"]?` (or `['"]` when `quotesRequired`) at the current position:
    optionally (resp. necessarily) consume one quote character. -/
def quoteStep (quotesRequired : Bool) (s : List Char) : Option (List Char) :=
  match s with
  | c :: cs =>
      if c = '\'' || c = '"' then some cs
      else if quotesRequired then none else some s
  | [] => if quotesRequired then none else some s

/-- Match the body of the version-type regex at one position:
    `['"]?PKG['"]?:\s+(major|minor|patch)` — with both quote characters
    mandatory when `quotesRequired` is true (the validator's regex) and
    optional otherwise (the merger's regex). `\s+` is greedy and none of the
    bump tokens starts with a whitespace character, so it is equivalent to
    consuming the maximal nonempty whitespace run. -/
def matchVersionAt (quotesRequired : Bool) (s : List Char) : Option Bump := do
  let s ← quoteStep quotesRequired s
  let s ← dropLit PACKAGE_NAME s
  let s ← quoteStep quotesRequired s
  let s ← dropLit [':'] s
  match s with
  | c :: cs =>
      if isJsWhitespace c then bumpAt (cs.dropWhile isJsWhitespace)
      else none
  | [] => none

/-- Scan for the leftmost match of the `m`-flagged regex
    `^['"]?PKG['"]?:\s+(major|minor|patch)` (quotes mandatory when
    `quotesRequired`): positions are tried left to right, and the `^` anchor
    only lets a position match when it is the start of input or follows a
    line terminator. Returns the captured bump of the first match. -/
def scanVersion (quotesRequired : Bool) : Bool → List Char → Option Bump
  | atLineStart, s =>
    match (if atLineStart then matchVersionAt quotesRequired s else none) with
    | some b => some b
    | none =>
        match s with
        | [] => none
        | c :: cs => scanVersion quotesRequired (isLineTerminator c) cs

/-- Embedding of `content.match(versionTypeRegex)` for the validator's regex
    (quotes required around the package name). -/
def matchVersionValidator (content : List Char) : Option Bump :=
  scanVersion true true content

/-- Embedding of `content.match(versionTypeRegex)` for the merger's regex
    (quotes optional around the package name). -/
def matchVersionMerger (content : List Char) : Option Bump :=
  scanVersion false true content

/-- Embedding of `content.split('---')`: split on each leftmost non-overlapping
    occurrence of the three-dash delimiter. -/
def splitDashes : List Char → List (List Char)
  | '-' :: '-' :: '-' :: rest => [] :: splitDashes rest
  | c :: rest =>
      match splitDashes rest with
      | h :: t => (c :: h) :: t
      | [] => [c :: []]
  | [] => [[]]

/-- Embedding of `parts.join('---')`: rejoin segments with the three-dash delimiter. -/
def joinDashes : List (List Char) → List Char
  | [] => []
  | [p] => p
  | p :: ps => p ++ '-' :: '-' :: '-' :: joinDashes ps

/-- JavaScript `String.prototype.trim`. -/
def jsTrim (s : List Char) : List Char :=
  ((s.dropWhile isJsWhitespace).reverse.dropWhile isJsWhitespace).reverse

/-- The parse failures surfaced by the validator's `validateChangesetFile`. -/
inductive ParseError where
  | missingBump
  | missingDescription
  | emptyDescription
deriving DecidableEq

/-- The result shape of `validateChangesetFile`:
    `{valid: false, error}` or `{valid: true, type, description}`. -/
inductive ParseResult where
  | failure (e : ParseError)
  | parsed (b : Bump) (description : List Char)
deriving DecidableEq

/-- Embedding of `validateChangesetFile` from the validator script (pure part, over the
    file's content): requires the quoted package declaration with a
    recognized bump, at least three `---` segments, and a nonempty trimmed
    description. -/
def validateChangesetFile (content : List Char) : ParseResult :=
  match matchVersionValidator content with
  | none => .failure .missingBump
  | some b =>
      let parts := splitDashes content
      if parts.length < 3 then .failure .missingDescription
      else
        let description := jsTrim (joinDashes (parts.drop 2))
        if description = [] then .failure .emptyDescription
        else .parsed b description

/-- Embedding of `parseChangeset` from `merge-changesets.mjs` (pure part, over the file's
    content; the modification time is attached by the caller): quotes are
    optional around the package name, and when fewer than three `---`
    segments exist the description silently defaults to the empty string —
    the record is still returned. -/
def parseChangeset (content : List Char) : Option (Bump × List Char) :=
  match matchVersionMerger content with
  | none => none
  | some b =>
      let parts := splitDashes content
      let description :=
        if 3 ≤ parts.length then jsTrim (joinDashes (parts.drop 2)) else []
      some (b, description)

/-! ### The validator's top-level script body -/

/-- The outcome of the validation script body (`detect-code-changes.mjs`,
    validator half): exit-1 paths for zero files, for more than one file
    (listing every added file), and for a parse failure of the single file;
    the success path reports the parsed type and description. -/
inductive ValidationResult where
  | missingChangeset
  | tooManyChangesets (files : List (List Char))
  | invalidChangeset (e : ParseError)
  | passed (b : Bump) (description : List Char)
deriving DecidableEq

/-- The validator's script body over the added changeset files (each paired
    with its content): exactly-one enforcement followed by
    `validateChangesetFile` on the single candidate. -/
def validateMain : List (List Char × List Char) → ValidationResult
  | [] => .missingChangeset
  | [(_, content)] =>
      match validateChangesetFile content with
      | .failure e => .invalidChangeset e
      | .parsed b d => .passed b d
  | files => .tooManyChangesets (files.map Prod.fst)

/-! ### The PR-scoped change detector -/

/-- Does a directory entry name qualify as a changeset file
    (`file.endsWith('.md') && file !== 'README.md'`)? -/
def qualifies (name : List Char) : Bool :=
  ".md".toList.isSuffixOf name && name ≠ "README.md".toList

/-- Embedding of `getAllChangesets`: the directory-snapshot fallback — empty when the
    changeset directory does not exist, otherwise the listing filtered to
    qualifying names. -/
def getAllChangesets (dirExists : Bool) (listing : List (List Char)) :
    List (List Char) :=
  if dirExists then listing.filter (fun f => qualifies f) else []

/-- The tail of `getAddedChangesetFiles` after the explicit-SHA strategy:
    try the base-branch comparison when `GITHUB_BASE_REF` is set and its
    diff produced a list, otherwise fall back to `getAllChangesets`. -/
def branchThenFallback (prBase : Option (List Char))
    (branchResult : Option (List (List Char)))
    (dirExists : Bool) (listing : List (List Char)) : List (List Char) :=
  match prBase with
  | some _ =>
      match branchResult with
      | some r => r
      | none => getAllChangesets dirExists listing
  | none => getAllChangesets dirExists listing

/-- Embedding of `getAddedChangesetFiles`: the strategy cascade.
    `baseSha`/`headSha`/`prBase` are `none` when the corresponding
    environment variable is unset (or empty, which is falsy in JavaScript);
    `explicitResult` and `branchResult` inject the outcome of the two
    git-diff strategies (`none` models the strategy throwing and returning
    null). -/
def getAddedChangesetFiles (baseSha headSha prBase : Option (List Char))
    (explicitResult branchResult : Option (List (List Char)))
    (dirExists : Bool) (listing : List (List Char)) : List (List Char) :=
  match baseSha, headSha with
  | some _, some _ =>
      match explicitResult with
      | some r => r
      | none => branchThenFallback prBase branchResult dirExists listing
  | _, _ => branchThenFallback prBase branchResult dirExists listing

/-! ### The merger -/

/-- One entry of the changeset directory: its name, its byte content and
    its modification time (`statSync(...).mtime`, as a number). -/
structure DirEntry where
  name : List Char
  content : List Char
  mtime : Nat
deriving DecidableEq

/-- One element of the merger's `parsedChangesets` array:
    `{file, type, description, mtime}` (the full path is omitted — the
    directory is fixed). -/
structure ParsedCs where
  file : List Char
  type : Bump
  description : List Char
  mtime : Nat
deriving DecidableEq

/-- Embedding of `getHighestBumpType` from `merge-changesets.mjs`: fold starting from
    `'patch'`, replacing the accumulator whenever a strictly higher
    priority is seen. -/
def getHighestBumpType (types : List Bump) : Bump :=
  types.foldl
    (fun highest t =>
      if BUMP_PRIORITY highest < BUMP_PRIORITY t then t else highest)
    .patch

/-- Embedding of `descriptions.join('\n\n')`, the blank-line join used by
    `createMergedChangeset`. -/
def joinBlank : List (List Char) → List Char
  | [] => []
  | [d] => d
  | d :: ds => d ++ '\n' :: '\n' :: joinBlank ds

/-- Embedding of `createMergedChangeset`: the full text of the merged changeset file. -/
def createMergedChangeset (type : Bump) (descriptions : List (List Char)) :
    List Char :=
  "---\n'".toList ++ PACKAGE_NAME ++ "': ".toList ++ bumpLit type ++
    "\n---\n\n".toList ++ joinBlank descriptions ++ ['\n']

/-- The adjective pool of `generateChangesetName`. -/
def adjectives : List (List Char) :=
  ["bright", "calm", "cool", "cyan", "dark", "fast", "gold", "good",
   "green", "happy", "kind", "loud", "neat", "nice", "pink", "proud",
   "quick", "red", "rich", "safe", "shy", "soft", "sweet", "tall",
   "warm", "wise", "young"].map String.toList

/-- The noun pool of `generateChangesetName`. -/
def nouns : List (List Char) :=
  ["apple", "bird", "book", "car", "cat", "cloud", "desk", "dog",
   "door", "fish", "flower", "frog", "grass", "house", "key", "lake",
   "leaf", "moon", "mouse", "owl", "park", "rain", "river", "rock",
   "sea", "star", "sun", "tree", "wave", "wind"].map String.toList

/-- Embedding of `generateChangesetName`, with the two random draws injected as indices
    (`Math.floor(Math.random() * length)` always lands in range, which the
    `%` makes explicit): `adjective-noun`. -/
def generateChangesetName (i j : Nat) : List Char :=
  (adjectives.getD (i % adjectives.length) []) ++ ['-'] ++
    (nouns.getD (j % nouns.length) [])

/-- The synthesized merged filename, `merged-ADJ-NOUN.md`. -/
def mergedFileName (i j : Nat) : List Char :=
  "merged-".toList ++ generateChangesetName i j ++ ".md".toList

/-- Stable ordered insert for the ascending modification-time sort:
    the inserted element goes before the first element whose key is ≥ its
    own. JavaScript's `Array.prototype.sort` is stable, so an element
    coming earlier in the array stays before later elements with an equal
    key; inserting elements right-to-left with this insert realizes the
    same order. -/
def insertByMtime (x : ParsedCs) : List ParsedCs → List ParsedCs
  | [] => [x]
  | y :: ys =>
      if x.mtime ≤ y.mtime then x :: y :: ys else y :: insertByMtime x ys

/-- Embedding of `parsedChangesets.sort((a, b) => a.mtime - b.mtime)`: a stable sort
    ascending by modification time (insertion sort, which is stable for
    this comparator). -/
def sortByMtime (l : List ParsedCs) : List ParsedCs :=
  l.foldr insertByMtime []

/-- The qualifying changeset files of a directory listing
    (`readdirSync(...).filter(...)`). -/
def changesetFilesOf (dir : List DirEntry) : List DirEntry :=
  dir.filter (fun e => qualifies e.name)

/-- The merger's `parsedChangesets` array before sorting: every qualifying
    file that `parseChangeset` accepts, in listing order. -/
def parsedListOf (dir : List DirEntry) : List ParsedCs :=
  (changesetFilesOf dir).filterMap
    (fun e => (parseChangeset e.content).map
      (fun p => ParsedCs.mk e.name p.1 p.2 e.mtime))

/-- A filesystem operation performed by the merger. -/
inductive FsOp where
  | write (name content : List Char)
  | delete (name : List Char)
deriving DecidableEq

/-- The merger's outcome: no-op, fatal `process.exit(1)` when nothing
    parses, or a successful merge reporting the new filename, the final
    bump, the combined description and the deleted source files. -/
inductive MergeOutcome where
  | noMergeNeeded
  | noValidChangesets
  | merged (fileName : List Char) (bump : Bump) (combined : List Char)
      (deleted : List (List Char))
deriving DecidableEq

/-- The `main` routine of `merge-changesets.mjs` as a pure function from the
    directory listing (and the two injected random draws) to an outcome and
    the ordered list of filesystem operations it performs: nothing for the
    0/1-file and all-unparseable cases; otherwise one write of the merged
    file followed by one delete per successfully parsed source file, in
    sorted order. -/
def mergeRun (dir : List DirEntry) (i j : Nat) :
    MergeOutcome × List FsOp :=
  if (changesetFilesOf dir).length ≤ 1 then (.noMergeNeeded, [])
  else
    let parsedChangesets := parsedListOf dir
    if parsedChangesets.length = 0 then (.noValidChangesets, [])
    else
      let sorted := sortByMtime parsedChangesets
      let highestBumpType := getHighestBumpType (sorted.map (·.type))
      let descriptions :=
        (sorted.filter (fun c => c.description ≠ [])).map (·.description)
      let mergedContent := createMergedChangeset highestBumpType descriptions
      let name := mergedFileName i j
      (.merged name highestBumpType (joinBlank descriptions)
         (sorted.map (·.file)),
       .write name mergedContent :: sorted.map (fun c => .delete c.file))

/-- Apply one filesystem operation to a directory listing: `writeFileSync`
    replaces the content of an existing entry (updating its modification
    time to `now`) or appends a new entry; `unlinkSync` removes the entry. -/
def applyOp (now : Nat) (dir : List DirEntry) : FsOp → List DirEntry
  | .write n c =>
      if dir.any (fun e => e.name = n) then
        dir.map (fun e => if e.name = n then DirEntry.mk n c now else e)
      else dir ++ [DirEntry.mk n c now]
  | .delete n => dir.filter (fun e => e.name ≠ n)

/-- Apply a sequence of filesystem operations in order. -/
def applyOps (now : Nat) (dir : List DirEntry) (ops : List FsOp) :
    List DirEntry :=
  ops.foldl (applyOp now) dir

/-- The value bound to `mergedContent` inside the merge routine: the merged
    file text built from the sorted records, exactly as `main` computes it. -/
def mergedContentOf (dir : List DirEntry) : List Char :=
  createMergedChangeset
    (getHighestBumpType ((sortByMtime (parsedListOf dir)).map ParsedCs.type))
    (((sortByMtime (parsedListOf dir)).filter
        (fun c => c.description ≠ [])).map ParsedCs.description)

/-! ### Concrete changeset data used by witnesses and counterexamples -/

/-- A well-formed patch changeset with description "Fix typo". -/
def contentPatchFix : List Char :=
  "---\n'my-package': patch\n---\n\nFix typo\n".toList

/-- A well-formed minor changeset with description "Add feature". -/
def contentMinorAdd : List Char :=
  "---\n'my-package': minor\n---\n\nAdd feature\n".toList

/-- A changeset whose front matter is never closed: it splits into only two
    segments on the three-dash delimiter. -/
def contentNoClose : List Char :=
  "---\n'my-package': major\nno closing delimiter".toList

/-- A well-formed changeset whose package declaration carries quotes,
    parameterized by the bump literal. -/
def quotedDecl (b : Bump) : List Char :=
  "---\n'my-package': ".toList ++ bumpLit b ++ "\n---\n\nAdd feature\n".toList

/-- The same changeset with the quotes around the package name removed. -/
def unquotedDecl (b : Bump) : List Char :=
  "---\nmy-package: ".toList ++ bumpLit b ++ "\n---\n\nAdd feature\n".toList

/-- Directory entry `a.md` holding the patch changeset, modified at time 10. -/
def entryA : DirEntry := DirEntry.mk "a.md".toList contentPatchFix 10

/-- Directory entry `b.md` holding the minor changeset, modified at time 20. -/
def entryB : DirEntry := DirEntry.mk "b.md".toList contentMinorAdd 20

/-- Entry `a.md` with the same modification time as `entryTieB`. -/
def entryTieA : DirEntry := DirEntry.mk "a.md".toList contentPatchFix 7

/-- Entry `b.md` with the same modification time as `entryTieA`. -/
def entryTieB : DirEntry := DirEntry.mk "b.md".toList contentMinorAdd 7

/-- A leftover merged changeset from an earlier run whose name is exactly
    the one the random draws `i = 0`, `j = 0` synthesize. -/
def leftoverMerged : DirEntry :=
  DirEntry.mk "merged-bright-apple.md".toList contentPatchFix 5

/-- A directory in which the synthesized merged filename collides with an
    existing file. -/
def collisionDir : List DirEntry := [leftoverMerged, entryB]

end Changesets

namespace Changesets

/-! ### C1: validator exactness -/

/-- C1: the validator succeeds if and only if exactly one added file is
    found and that file parses; it reports `missingChangeset` for zero
    files, `tooManyChangesets` naming every added file for two or more,
    and the parse-specific reason (missing bump declaration, missing
    description segment, or empty description) for a single unparseable
    file. -/
theorem validator_exactness (files : List (List Char × List Char)) :
    (files = [] → validateMain files = .missingChangeset) ∧
    (2 ≤ files.length →
      validateMain files = .tooManyChangesets (files.map Prod.fst)) ∧
    (∀ name content, files = [(name, content)] →
      (∀ e, validateChangesetFile content = .failure e →
        validateMain files = .invalidChangeset e) ∧
      (∀ b d, validateChangesetFile content = .parsed b d →
        validateMain files = .passed b d)) ∧
    ((∃ b d, validateMain files = .passed b d) ↔
      ∃ name content b d, files = [(name, content)] ∧
        validateChangesetFile content = .parsed b d) := by
  rcases files with - | ⟨⟨n0, c0⟩, - | ⟨⟨n1, c1⟩, rest⟩⟩
  · refine ⟨fun _ => rfl, ?_, ?_, ?_⟩
    · intro h; simp at h
    · intro n c h; simp at h
    · constructor
      · rintro ⟨b, d, h⟩; simp [validateMain] at h
      · rintro ⟨n, c, b, d, h, -⟩; simp at h
  · refine ⟨?_, ?_, ?_, ?_⟩
    · intro h; simp at h
    · intro h; simp at h
    · intro n c h
      obtain ⟨rfl, rfl⟩ : n0 = n ∧ c0 = c := by simpa using h
      constructor
      · intro e he; simp [validateMain, he]
      · intro b d hb; simp [validateMain, hb]
    · constructor
      · rintro ⟨b, d, h⟩
        rcases hv : validateChangesetFile c0 with e | ⟨b', d'⟩ <;>
          simp [validateMain, hv] at h
        obtain ⟨rfl, rfl⟩ := h
        exact ⟨n0, c0, b', d', rfl, hv⟩
      · rintro ⟨n, c, b, d, heq, hv⟩
        obtain ⟨rfl, rfl⟩ : n0 = n ∧ c0 = c := by simpa using heq
        exact ⟨b, d, by simp [validateMain, hv]⟩
  · refine ⟨?_, ?_, ?_, ?_⟩
    · intro h; simp at h
    · intro _; rfl
    · intro n c h; simp at h
    · constructor
      · rintro ⟨b, d, h⟩; simp [validateMain] at h
      · rintro ⟨n, c, b, d, heq, -⟩; simp at heq

/-- Witness for C1 at a concrete two-file input. -/
theorem validator_exactness_witness :
    validateMain
        [("a.md".toList, contentPatchFix), ("b.md".toList, contentMinorAdd)] =
      .tooManyChangesets ["a.md".toList, "b.md".toList] :=
  (validator_exactness _).2.1 (by decide)

/-! ### C4: merge is a no-op on at most one qualifying file -/

/-- C4: when the directory holds at most one qualifying changeset file the
    merge routine reports `noMergeNeeded`, performs no filesystem
    operation, and the directory is byte-for-byte unchanged. -/
theorem merge_noop (dir : List DirEntry) (i j now : Nat)
    (h : (changesetFilesOf dir).length ≤ 1) :
    mergeRun dir i j = (.noMergeNeeded, []) ∧
    applyOps now dir (mergeRun dir i j).2 = dir := by
  have h1 : mergeRun dir i j = (.noMergeNeeded, []) := by
    unfold mergeRun
    rw [if_pos h]
  exact ⟨h1, by rw [h1]; rfl⟩

/-- Witness for C4: a directory with one changeset plus a reserved README. -/
theorem merge_noop_witness :
    mergeRun [entryA, DirEntry.mk "README.md".toList [] 1] 0 0 =
        (.noMergeNeeded, []) ∧
    applyOps 99 [entryA, DirEntry.mk "README.md".toList [] 1]
        (mergeRun [entryA, DirEntry.mk "README.md".toList [] 1] 0 0).2 =
      [entryA, DirEntry.mk "README.md".toList [] 1] :=
  merge_noop [entryA, DirEntry.mk "README.md".toList [] 1] 0 0 99 (by decide)

/-! ### C9: detector fallback -/

/-- C9: whenever no explicit base/head pair is available or the explicit
    diff fails, and no base branch is available or the branch diff fails,
    the detector returns the filtered directory snapshot without raising;
    the snapshot is empty when the directory does not exist. -/
theorem detector_fallback (baseSha headSha prBase : Option (List Char))
    (explicitResult branchResult : Option (List (List Char)))
    (dirExists : Bool) (listing : List (List Char))
    (hExplicit : baseSha = none ∨ headSha = none ∨ explicitResult = none)
    (hBranch : prBase = none ∨ branchResult = none) :
    getAddedChangesetFiles baseSha headSha prBase explicitResult branchResult
        dirExists listing = getAllChangesets dirExists listing ∧
    (dirExists = false →
      getAddedChangesetFiles baseSha headSha prBase explicitResult
          branchResult dirExists listing = []) := by
  have hb : branchThenFallback prBase branchResult dirExists listing =
      getAllChangesets dirExists listing := by
    rcases hBranch with rfl | rfl
    · rfl
    · cases prBase <;> rfl
  have hmain : getAddedChangesetFiles baseSha headSha prBase explicitResult
      branchResult dirExists listing = getAllChangesets dirExists listing := by
    rcases hExplicit with rfl | rfl | rfl
    · simpa [getAddedChangesetFiles] using hb
    · cases baseSha <;> simpa [getAddedChangesetFiles] using hb
    · cases baseSha <;> cases headSha <;>
        simpa [getAddedChangesetFiles] using hb
  refine ⟨hmain, fun hd => ?_⟩
  rw [hmain]
  subst hd
  rfl

/-- Witness for C9 with no revision context at all and an existing
    directory holding one qualifying file, one reserved README and one
    non-markdown file. -/
theorem detector_fallback_witness :
    getAddedChangesetFiles none none none none none true
        ["x.md".toList, "README.md".toList, "y.txt".toList] =
      getAllChangesets true
        ["x.md".toList, "README.md".toList, "y.txt".toList] ∧
    (true = false →
      getAddedChangesetFiles none none none none none true
          ["x.md".toList, "README.md".toList, "y.txt".toList] = []) :=
  detector_fallback none none none none none true
    ["x.md".toList, "README.md".toList, "y.txt".toList]
    (Or.inl rfl) (Or.inl rfl)

end Changesets

namespace Changesets

/-! ### C5: the bump-priority resolver -/

/-- Characterization of the resolver's fold for an arbitrary accumulator. -/
theorem getHighest_go (acc : Bump) (l : List Bump) :
    l.foldl
        (fun highest t =>
          if BUMP_PRIORITY highest < BUMP_PRIORITY t then t else highest)
        acc =
      if Bump.major ∈ l ∨ acc = Bump.major then Bump.major
      else if Bump.minor ∈ l ∨ acc = Bump.minor then Bump.minor
      else acc := by
  induction l generalizing acc with
  | nil => cases acc <;> simp
  | cons b t ih =>
      rw [List.foldl_cons, ih]
      by_cases hM : Bump.major ∈ t <;> by_cases hm : Bump.minor ∈ t <;>
        cases acc <;> cases b <;>
        simp [List.mem_cons, hM, hm, BUMP_PRIORITY]

/-- The resolver returns major when any input is major, else minor when any
    input is minor, else patch. -/
theorem getHighest_canonical (l : List Bump) :
    getHighestBumpType l =
      if Bump.major ∈ l then Bump.major
      else if Bump.minor ∈ l then Bump.minor
      else Bump.patch := by
  have h := getHighest_go .patch l
  simpa [getHighestBumpType] using h

/-- C5: the resolver returns `major` if any element is `major`, else
    `minor` if any is `minor`, else `patch`; the result is invariant under
    permutation of the input (it depends only on the multiset of inputs);
    and the empty input resolves to `patch`. -/
theorem bump_resolver (l l' : List Bump) (hp : List.Perm l l') :
    getHighestBumpType l =
      (if Bump.major ∈ l then Bump.major
       else if Bump.minor ∈ l then Bump.minor
       else Bump.patch) ∧
    getHighestBumpType l = getHighestBumpType l' ∧
    getHighestBumpType [] = Bump.patch := by
  refine ⟨getHighest_canonical l, ?_, rfl⟩
  rw [getHighest_canonical l, getHighest_canonical l']
  simp only [hp.mem_iff]

/-- Witness for C5 on a concrete permutation pair. -/
theorem bump_resolver_witness :
    getHighestBumpType [Bump.patch, Bump.minor, Bump.patch] =
      (if Bump.major ∈ [Bump.patch, Bump.minor, Bump.patch] then Bump.major
       else if Bump.minor ∈ [Bump.patch, Bump.minor, Bump.patch] then
         Bump.minor
       else Bump.patch) ∧
    getHighestBumpType [Bump.patch, Bump.minor, Bump.patch] =
      getHighestBumpType [Bump.minor, Bump.patch, Bump.patch] ∧
    getHighestBumpType [] = Bump.patch :=
  bump_resolver [Bump.patch, Bump.minor, Bump.patch]
    [Bump.minor, Bump.patch, Bump.patch] (by decide)

/-! ### C2: quoted and unquoted package names -/

/-- C2 counterexample: an unquoted declaration of the expected package with
    a recognized bump literal is extracted by the merger's parser but
    rejected by the validator's parser, whose regex requires one quote
    character on each side of the package name — so the claim that both
    parsers accept the unquoted form is false. -/
theorem quotes_counterexample :
    parseChangeset (unquotedDecl .minor) =
      some (.minor, "Add feature".toList) ∧
    validateChangesetFile (unquotedDecl .minor) = .failure .missingBump := by
  decide

/-- C2 amended: for every recognized bump literal, the merger's parser
    extracts the bump whether the package name is quoted or unquoted,
    while the validator's parser extracts it only from the quoted form and
    reports a missing bump declaration for the unquoted form. -/
theorem quotes_amended (b : Bump) :
    parseChangeset (quotedDecl b) = some (b, "Add feature".toList) ∧
    parseChangeset (unquotedDecl b) = some (b, "Add feature".toList) ∧
    validateChangesetFile (quotedDecl b) =
      .parsed b ("Add feature".toList) ∧
    validateChangesetFile (unquotedDecl b) = .failure .missingBump := by
  cases b <;> decide

/-! ### C3: fewer than three delimiter segments -/

/-- C3 counterexample: on content with fewer than three `---` segments the
    merger's parser does not fail — it returns a record with an empty
    description — and the merge routine does not treat the file as absent:
    its bump still participates (here lifting the merged bump to major). -/
theorem missing_description_counterexample :
    (splitDashes contentNoClose).length < 3 ∧
    parseChangeset contentNoClose = some (.major, []) ∧
    (mergeRun [DirEntry.mk "zz.md".toList contentNoClose 1, entryA] 0 0).1 =
      .merged (mergedFileName 0 0) .major ("Fix typo".toList)
        ["zz.md".toList, "a.md".toList] := by
  decide

/-- C3 amended: on content with fewer than three `---` segments the
    validator's parser fails with the distinct missing-description error
    whenever its bump declaration parsed, whereas the merger's parser
    returns the record with the description defaulted to the empty
    string. -/
theorem missing_description_amended (c : List Char)
    (h : (splitDashes c).length < 3) :
    (∀ b, matchVersionValidator c = some b →
      validateChangesetFile c = .failure .missingDescription) ∧
    (∀ b, matchVersionMerger c = some b →
      parseChangeset c = some (b, [])) := by
  constructor
  · intro b hb
    simp only [validateChangesetFile, hb]
    rw [if_pos h]
  · intro b hb
    simp only [parseChangeset, hb]
    rw [if_neg (show ¬3 ≤ (splitDashes c).length by omega)]

/-- Witness for the amended C3 at a concrete quoted-but-unclosed input. -/
theorem missing_description_amended_witness :
    validateChangesetFile contentNoClose = .failure .missingDescription :=
  (missing_description_amended contentNoClose (by decide)).1 .major (by decide)

/-! ### C8: the synthesized merged filename can collide -/

/-- C8: with random draws `i = 0`, `j = 0` the synthesized filename is
    `merged-bright-apple.md`; in a directory already holding a parseable
    file of that name (a leftover of an earlier merge) plus one more
    changeset, the merge writes the merged record over the existing file
    and then deletes it as a parsed source, leaving the directory empty —
    the merged record is lost, contradicting the claim that the name never
    collides and the write never overwrites. -/
theorem merged_name_collision :
    mergedFileName 0 0 ∈ collisionDir.map DirEntry.name ∧
    (mergeRun collisionDir 0 0).2 =
      [.write (mergedFileName 0 0)
          (createMergedChangeset .minor
            ["Fix typo".toList, "Add feature".toList]),
       .delete ("merged-bright-apple.md".toList),
       .delete ("b.md".toList)] ∧
    applyOps 99 collisionDir (mergeRun collisionDir 0 0).2 = [] := by
  decide

end Changesets

namespace Changesets

/-! ### Sorting lemmas shared by the merge theorems -/

/-- Ordered insertion permutes to consing. -/
theorem insertByMtime_perm (x : ParsedCs) (l : List ParsedCs) :
    List.Perm (insertByMtime x l) (x :: l) := by
  induction l with
  | nil => simp [insertByMtime]
  | cons y ys ih =>
      rw [insertByMtime]
      split
      · exact List.Perm.refl _
      · exact (ih.cons y).trans (List.Perm.swap x y ys)

/-- The merger's sort is a permutation of its input. -/
theorem sortByMtime_perm (l : List ParsedCs) :
    List.Perm (sortByMtime l) l := by
  induction l with
  | nil => exact List.Perm.refl _
  | cons a t ih =>
      exact (insertByMtime_perm a (sortByMtime t)).trans (ih.cons a)

/-- Ordered insertion preserves sortedness by modification time. -/
theorem insertByMtime_sorted (x : ParsedCs) {l : List ParsedCs}
    (h : l.Pairwise (fun a b => a.mtime ≤ b.mtime)) :
    (insertByMtime x l).Pairwise (fun a b => a.mtime ≤ b.mtime) := by
  induction l with
  | nil => simp [insertByMtime]
  | cons y ys ih =>
      rw [List.pairwise_cons] at h
      obtain ⟨hy, hys⟩ := h
      rw [insertByMtime]
      split
      · next hle =>
          rw [List.pairwise_cons]
          refine ⟨?_, List.pairwise_cons.mpr ⟨hy, hys⟩⟩
          intro z hz
          rcases List.mem_cons.mp hz with rfl | hz'
          · exact hle
          · exact le_trans hle (hy z hz')
      · next hgt =>
          rw [List.pairwise_cons]
          refine ⟨?_, ih hys⟩
          intro z hz
          have hz' := (insertByMtime_perm x ys).mem_iff.mp hz
          rcases List.mem_cons.mp hz' with rfl | hz''
          · exact le_of_not_le hgt
          · exact hy z hz''

/-- The merger's sort is sorted (ascending) by modification time. -/
theorem sortByMtime_sorted (l : List ParsedCs) :
    (sortByMtime l).Pairwise (fun a b => a.mtime ≤ b.mtime) := by
  induction l with
  | nil => simp [sortByMtime]
  | cons a t ih => exact insertByMtime_sorted a ih

/-- Two sorted permutations of the same records with pairwise-distinct
    modification times are equal. -/
theorem sorted_perm_distinct_eq :
    ∀ {l₁ l₂ : List ParsedCs}, List.Perm l₁ l₂ →
      l₁.Pairwise (fun a b => a.mtime ≤ b.mtime) →
      l₂.Pairwise (fun a b => a.mtime ≤ b.mtime) →
      l₁.Pairwise (fun a b => a.mtime ≠ b.mtime) →
      l₁ = l₂ := by
  intro l₁
  induction l₁ with
  | nil =>
      intro l₂ hp _ _ _
      exact hp.nil_eq
  | cons a t ih =>
      intro l₂ hp h₁ h₂ hd
      cases l₂ with
      | nil => exact absurd hp.eq_nil (List.cons_ne_nil a t)
      | cons b t₂ =>
          have hab : a = b := by
            by_contra hne
            have haT : a ∈ t₂ := by
              rcases List.mem_cons.mp
                  (hp.mem_iff.mp (List.mem_cons_self a t)) with h | h
              · exact absurd h hne
              · exact h
            have hbT : b ∈ t := by
              rcases List.mem_cons.mp
                  (hp.symm.mem_iff.mp (List.mem_cons_self b t₂)) with h | h
              · exact absurd h.symm hne
              · exact h
            have h1 : a.mtime ≤ b.mtime := (List.pairwise_cons.mp h₁).1 b hbT
            have h2 : b.mtime ≤ a.mtime := (List.pairwise_cons.mp h₂).1 a haT
            have h3 : a.mtime ≠ b.mtime := (List.pairwise_cons.mp hd).1 b hbT
            omega
          subst hab
          rw [ih hp.cons_inv (List.pairwise_cons.mp h₁).2
            (List.pairwise_cons.mp h₂).2 (List.pairwise_cons.mp hd).2]

/-- Reduction of the merge routine when it proceeds: at least two
    qualifying files and at least one parsed record. -/
theorem mergeRun_proceeds (dir : List DirEntry) (i j : Nat)
    (h2 : 2 ≤ (changesetFilesOf dir).length)
    (hp : (parsedListOf dir).length ≠ 0) :
    mergeRun dir i j =
      (.merged (mergedFileName i j)
         (getHighestBumpType
           ((sortByMtime (parsedListOf dir)).map ParsedCs.type))
         (joinBlank (((sortByMtime (parsedListOf dir)).filter
             (fun c => c.description ≠ [])).map ParsedCs.description))
         ((sortByMtime (parsedListOf dir)).map ParsedCs.file),
       .write (mergedFileName i j) (mergedContentOf dir) ::
         (sortByMtime (parsedListOf dir)).map (fun c => FsOp.delete c.file)) := by
  simp only [mergeRun]
  rw [if_neg (by omega), if_neg hp]
  rfl

/-! ### C6: chronological description concatenation -/

/-- C6: for a directory whose parsed records are enumerated in strictly
    increasing modification-time order with nonempty descriptions and at
    least two of them, merging any permutation of that directory produces
    the merged outcome whose combined description joins the descriptions
    in that chronological order with blank-line separators, each
    description unmodified — independent of enumeration order. -/
theorem merge_description_order (dir dir' : List DirEntry) (i j : Nat)
    (hperm : List.Perm dir dir')
    (hN : 2 ≤ (parsedListOf dir).length)
    (hsorted : (parsedListOf dir).Pairwise (fun a b => a.mtime < b.mtime))
    (hne : ∀ p ∈ parsedListOf dir, p.description ≠ []) :
    (mergeRun dir' i j).1 =
      .merged (mergedFileName i j)
        (getHighestBumpType ((parsedListOf dir).map ParsedCs.type))
        (joinBlank ((parsedListOf dir).map ParsedCs.description))
        ((parsedListOf dir).map ParsedCs.file) := by
  have hpl : List.Perm (parsedListOf dir) (parsedListOf dir') := by
    unfold parsedListOf changesetFilesOf
    exact (hperm.filter _).filterMap _
  have hlen : (parsedListOf dir').length = (parsedListOf dir).length :=
    hpl.symm.length_eq
  have hle : (parsedListOf dir').length ≤ (changesetFilesOf dir').length := by
    unfold parsedListOf
    exact List.length_filterMap_le _ _
  have h2 : 2 ≤ (changesetFilesOf dir').length := by omega
  have hrun := mergeRun_proceeds dir' i j h2 (by omega)
  have hq : List.Perm (parsedListOf dir) (sortByMtime (parsedListOf dir')) :=
    hpl.trans (sortByMtime_perm _).symm
  have hsort : sortByMtime (parsedListOf dir') = parsedListOf dir :=
    sorted_perm_distinct_eq ((sortByMtime_perm _).trans hpl.symm)
      (sortByMtime_sorted _) (hsorted.imp le_of_lt)
      ((hq.pairwise_iff (fun h => Ne.symm h)).mp (hsorted.imp Nat.ne_of_lt))
  have hf : (parsedListOf dir).filter (fun c => c.description ≠ []) =
      parsedListOf dir := by
    rw [List.filter_eq_self]
    intro p hp2
    simpa using hne p hp2
  rw [hrun, hsort, hf]

/-- Witness for C6: the two-file directory enumerated against
    chronological order still merges descriptions chronologically. -/
theorem merge_description_order_witness :
    (mergeRun [entryB, entryA] 0 0).1 =
      .merged (mergedFileName 0 0)
        (getHighestBumpType ((parsedListOf [entryA, entryB]).map ParsedCs.type))
        (joinBlank ((parsedListOf [entryA, entryB]).map ParsedCs.description))
        ((parsedListOf [entryA, entryB]).map ParsedCs.file) :=
  merge_description_order [entryA, entryB] [entryB, entryA] 0 0
    (by decide) (by decide) (by decide) (by decide)

end Changesets

namespace Changesets

/-- Folding a list of deletes over a directory filters out every deleted
    name. -/
theorem applyOps_deletes (now : Nat) (d : List DirEntry)
    (names : List (List Char)) :
    applyOps now d (names.map FsOp.delete) =
      d.filter (fun e => e.name ∉ names) := by
  induction names generalizing d with
  | nil => simp [applyOps]
  | cons n ns ih =>
      have step : applyOps now d (FsOp.delete n :: ns.map FsOp.delete) =
          applyOps now (d.filter (fun e => e.name ≠ n)) (ns.map FsOp.delete) :=
        rfl
      rw [List.map_cons, step, ih, List.filter_filter]
      refine List.filter_congr ?_
      intro e he
      simp [List.mem_cons, not_or, Bool.and_comm]

/-- Every successfully parsed record's file name is the name of some
    directory entry. -/
theorem parsed_file_mem {dir : List DirEntry} {p : ParsedCs}
    (hp : p ∈ parsedListOf dir) : p.file ∈ dir.map DirEntry.name := by
  unfold parsedListOf changesetFilesOf at hp
  rw [List.mem_filterMap] at hp
  obtain ⟨e, he, hfe⟩ := hp
  have he' : e ∈ dir := (List.mem_filter.mp he).1
  cases hpc : parseChangeset e.content with
  | none => rw [hpc] at hfe; simp at hfe
  | some q =>
      rw [hpc] at hfe
      simp only [Option.map_some'] at hfe
      obtain rfl : ParsedCs.mk e.name q.1 q.2 e.mtime = p := by
        simpa using hfe
      exact List.mem_map.mpr ⟨e, he', rfl⟩

/-! ### C7: effects of a merge that proceeds -/

/-- C7: when the merge proceeds (at least two qualifying files, at least
    one parsed) and the synthesized name is fresh, the operation list is
    one write of the merged record followed only by deletes; in the
    resulting directory every successfully parsed source file is absent,
    every other entry is untouched, and exactly one new file holds the
    merged record. -/
theorem merge_effects (dir : List DirEntry) (i j now : Nat)
    (h2 : 2 ≤ (changesetFilesOf dir).length)
    (hp : (parsedListOf dir).length ≠ 0)
    (hfresh : ∀ e ∈ dir, e.name ≠ mergedFileName i j) :
    (mergeRun dir i j).2 =
      .write (mergedFileName i j) (mergedContentOf dir) ::
        (sortByMtime (parsedListOf dir)).map (fun c => FsOp.delete c.file) ∧
    applyOps now dir (mergeRun dir i j).2 =
      dir.filter (fun e => e.name ∉ (parsedListOf dir).map ParsedCs.file) ++
        [DirEntry.mk (mergedFileName i j) (mergedContentOf dir) now] ∧
    (∀ p ∈ parsedListOf dir, ∀ e ∈ applyOps now dir (mergeRun dir i j).2,
      e.name ≠ p.file) ∧
    (∀ e ∈ dir, e.name ∉ (parsedListOf dir).map ParsedCs.file →
      e ∈ applyOps now dir (mergeRun dir i j).2) ∧
    (applyOps now dir (mergeRun dir i j).2).filter
        (fun e => e.name = mergedFileName i j) =
      [DirEntry.mk (mergedFileName i j) (mergedContentOf dir) now] := by
  have hrun := mergeRun_proceeds dir i j h2 hp
  have hops : (mergeRun dir i j).2 =
      .write (mergedFileName i j) (mergedContentOf dir) ::
        (sortByMtime (parsedListOf dir)).map (fun c => FsOp.delete c.file) := by
    rw [hrun]
  have hnames : ∀ x, x ∈ (sortByMtime (parsedListOf dir)).map ParsedCs.file ↔
      x ∈ (parsedListOf dir).map ParsedCs.file :=
    fun x => ((sortByMtime_perm (parsedListOf dir)).map ParsedCs.file).mem_iff
  have hnomem : mergedFileName i j ∉ (parsedListOf dir).map ParsedCs.file := by
    intro hmem
    obtain ⟨p, hp', hpf⟩ := List.mem_map.mp hmem
    obtain ⟨e', he', hen⟩ := List.mem_map.mp (parsed_file_mem hp')
    exact hfresh e' he' (hen.trans hpf)
  have hany : (dir.any (fun e => e.name = mergedFileName i j)) = false := by
    rw [List.any_eq_false]
    intro e he
    simpa using hfresh e he
  have hwrite : applyOp now dir
      (.write (mergedFileName i j) (mergedContentOf dir)) =
      dir ++ [DirEntry.mk (mergedFileName i j) (mergedContentOf dir) now] := by
    simp [applyOp, hany]
  have hfinal : applyOps now dir (mergeRun dir i j).2 =
      dir.filter (fun e => e.name ∉ (parsedListOf dir).map ParsedCs.file) ++
        [DirEntry.mk (mergedFileName i j) (mergedContentOf dir) now] := by
    rw [hops]
    have step : applyOps now dir
        (FsOp.write (mergedFileName i j) (mergedContentOf dir) ::
          (sortByMtime (parsedListOf dir)).map (fun c => FsOp.delete c.file)) =
        applyOps now
          (applyOp now dir
            (.write (mergedFileName i j) (mergedContentOf dir)))
          ((sortByMtime (parsedListOf dir)).map (fun c => FsOp.delete c.file)) :=
      rfl
    rw [step, hwrite]
    have hmm : ((sortByMtime (parsedListOf dir)).map
        (fun c => FsOp.delete c.file)) =
        (((sortByMtime (parsedListOf dir)).map ParsedCs.file).map
          FsOp.delete) := by
      rw [List.map_map]
      rfl
    rw [hmm, applyOps_deletes, List.filter_append]
    have hm : ([DirEntry.mk (mergedFileName i j) (mergedContentOf dir)
        now].filter
        (fun e =>
          e.name ∉ (sortByMtime (parsedListOf dir)).map ParsedCs.file)) =
        [DirEntry.mk (mergedFileName i j) (mergedContentOf dir) now] := by
      rw [List.filter_eq_self]
      intro a ha
      rcases List.mem_singleton.mp ha with rfl
      simp only [decide_eq_true_eq]
      intro hmem
      exact hnomem ((hnames _).mp hmem)
    rw [hm]
    congr 1
    refine List.filter_congr ?_
    intro e he
    exact decide_eq_decide.mpr (not_congr (hnames e.name))
  refine ⟨hops, hfinal, ?_, ?_, ?_⟩
  · intro p hp' e he
    rw [hfinal] at he
    rcases List.mem_append.mp he with he1 | he2
    · have hnot : e.name ∉ (parsedListOf dir).map ParsedCs.file := by
        simpa using (List.mem_filter.mp he1).2
      intro heq
      exact hnot (heq ▸ List.mem_map.mpr ⟨p, hp', rfl⟩)
    · rcases List.mem_singleton.mp he2 with rfl
      obtain ⟨e', he', hen⟩ := List.mem_map.mp (parsed_file_mem hp')
      intro heq
      exact hfresh e' he' (hen.trans heq.symm)
  · intro e he hnot
    rw [hfinal]
    exact List.mem_append.mpr
      (Or.inl (List.mem_filter.mpr ⟨he, by simpa using hnot⟩))
  · rw [hfinal, List.filter_append]
    have h1 : (dir.filter
        (fun e => e.name ∉ (parsedListOf dir).map ParsedCs.file)).filter
        (fun e => e.name = mergedFileName i j) = [] := by
      rw [List.filter_filter, List.filter_eq_nil_iff]
      intro e he
      simp [hfresh e he]
    have h2' : ([DirEntry.mk (mergedFileName i j) (mergedContentOf dir)
        now].filter (fun e => e.name = mergedFileName i j)) =
        [DirEntry.mk (mergedFileName i j) (mergedContentOf dir) now] := by
      rw [List.filter_eq_self]
      intro a ha
      rcases List.mem_singleton.mp ha with rfl
      simp
    rw [h1, h2', List.nil_append]

/-- Witness for C7: the final directory after merging the concrete
    two-file directory. -/
theorem merge_effects_witness :
    applyOps 99 [entryA, entryB] (mergeRun [entryA, entryB] 0 0).2 =
      [entryA, entryB].filter
          (fun e =>
            e.name ∉ (parsedListOf [entryA, entryB]).map ParsedCs.file) ++
        [DirEntry.mk (mergedFileName 0 0) (mergedContentOf [entryA, entryB])
          99] :=
  (merge_effects [entryA, entryB] 0 0 99 (by decide) (by decide)
    (by decide)).2.1

end Changesets

namespace Changesets

/-- Filtering one timestamp out of an ordered insertion: the inserted
    record joins the front of the equal-timestamp group exactly when it
    carries that timestamp, because insertion skips only records with
    strictly smaller timestamps. -/
theorem filter_mtime_insertByMtime (x : ParsedCs) (l : List ParsedCs)
    (t : Nat) :
    (insertByMtime x l).filter (fun c => c.mtime = t) =
      if x.mtime = t then x :: l.filter (fun c => c.mtime = t)
      else l.filter (fun c => c.mtime = t) := by
  induction l with
  | nil =>
      by_cases hx : x.mtime = t <;> simp [insertByMtime, hx]
  | cons y ys ih =>
      rw [insertByMtime]
      by_cases hle : x.mtime ≤ y.mtime
      · rw [if_pos hle]
        by_cases hx : x.mtime = t <;> by_cases hy : y.mtime = t <;>
          simp [List.filter_cons, hx, hy]
      · rw [if_neg hle]
        by_cases hx : x.mtime = t <;> by_cases hy : y.mtime = t
        all_goals simp [List.filter_cons, hx, hy, ih]
        all_goals omega


/-! ### C10: stability of the chronological sort -/

/-- C10: the merger's modification-time sort is stable — for every
    timestamp, the records carrying that timestamp appear in the sorted
    output exactly in enumeration order — and with equal timestamps the
    merged outcome genuinely depends on the enumeration order: the same
    two records enumerated in the two orders (a permutation pair) produce
    combined descriptions in the two different orders. -/
theorem merge_sort_stability :
    (∀ (l : List ParsedCs) (t : Nat),
      (sortByMtime l).filter (fun c => c.mtime = t) =
        l.filter (fun c => c.mtime = t)) ∧
    List.Perm [entryTieA, entryTieB] [entryTieB, entryTieA] ∧
    (mergeRun [entryTieA, entryTieB] 0 0).1 =
      .merged (mergedFileName 0 0) .minor
        ("Fix typo\n\nAdd feature".toList)
        ["a.md".toList, "b.md".toList] ∧
    (mergeRun [entryTieB, entryTieA] 0 0).1 =
      .merged (mergedFileName 0 0) .minor
        ("Add feature\n\nFix typo".toList)
        ["b.md".toList, "a.md".toList] := by
  refine ⟨?_, by decide, by decide, by decide⟩
  intro l t
  induction l with
  | nil => rfl
  | cons a s ih =>
      have hcons : sortByMtime (a :: s) = insertByMtime a (sortByMtime s) :=
        rfl
      rw [hcons, filter_mtime_insertByMtime, ih]
      by_cases ha : a.mtime = t <;> simp [List.filter_cons, ha]

end Changesets

namespace Changesets

/-- C7 counterexample: the claim is not unconditional. In the collision
    directory the merge proceeds (two qualifying files, both parsed), yet
    after the operations run the directory is empty: the write landed on
    the existing `merged-bright-apple.md`, whose entry was then deleted as
    a parsed source, so no file containing the merged record exists —
    refuting the claim that exactly one new file with the merged record
    always exists after a merge that proceeds. -/
theorem merge_effects_counterexample :
    2 ≤ (changesetFilesOf collisionDir).length ∧
    (parsedListOf collisionDir).length ≠ 0 ∧
    applyOps 99 collisionDir (mergeRun collisionDir 0 0).2 = [] ∧
    (applyOps 99 collisionDir (mergeRun collisionDir 0 0).2).filter
        (fun e => e.name = mergedFileName 0 0) = [] := by
  decide

end Changesets
